import Mathlib

/-!
# Verification of the weekend squeeze scanner

Shallow embedding of `weekend_squeeze_scanner.py` (TTM-squeeze indicator
engine, scan orchestrator, composite scorer, numeric sanitizer) together
with proofs about the embedded definitions.

Prices are embedded as exact rationals (`ℚ`).  The only irrational
quantity in the source is the rolling standard deviation used for the
Bollinger bands; the band-versus-channel comparison is embedded in an
equivalent squared form over `ℚ` (see `squeeze_on`), and its equivalence
with the literal band comparison over `ℝ` is proved in
`squeeze_on_iff_bands`.
-/

namespace Squeezes

/-- One weekly OHLCV bar.  Only `High`, `Low` and `Close` are read by the
squeeze calculator (`calculate_weekly_squeeze` never touches `Open` or
`Volume`), so only those three columns are embedded. -/
structure Bar where
  high : ℚ
  low : ℚ
  close : ℚ
deriving DecidableEq, Repr

instance : Inhabited Bar := ⟨⟨0, 0, 0⟩⟩

/-- Configuration constants of `calculate_weekly_squeeze`.  The scanner
only ever calls the function with its default configuration, in which the
Bollinger window and the Keltner window coincide (`bb_length = kc_length
= 20`); the embedding fixes that shared window length. -/
def bb_length : ℕ := 20

def kc_length : ℕ := 20

def bb_mult : ℚ := 2

/-- The channel multiplier `kc_mult = 1.2` (the "Mid squeeze" threshold). -/
def kc_mult : ℚ := 6 / 5

def mom_length : ℕ := 12

/-- The trailing window of `len` rows ending at row `i` inclusive
(pandas `rolling(len)` window for row `i`). -/
def window (df : List Bar) (len i : ℕ) : List Bar :=
  (df.drop (i + 1 - len)).take len

/-- Embedding of `close.rolling(len).mean()` at row `i`. -/
def meanAt (df : List Bar) (len i : ℕ) : ℚ :=
  (((window df len i).map Bar.close).sum) / len

/-- Sample variance (pandas `std` uses `ddof=1`, so the divisor is
`len - 1`) of Close over the window ending at row `i`.  The source takes
the square root to form `bb_std`; the embedding keeps the variance and
compares squares (see `squeeze_on_iff_bands`). -/
def varAt (df : List Bar) (len i : ℕ) : ℚ :=
  (((window df len i).map (fun b => (b.close - meanAt df len i) ^ 2)).sum) / (len - 1 : ℕ)

/-- True range at row `i`:
`max(high - low, |high - close.shift(1)|, |low - close.shift(1)|)`.
At row 0 the shifted close is missing and the pandas row-wise `max`
skips the resulting NaNs, leaving `high - low`. -/
def trAt (df : List Bar) (i : ℕ) : ℚ :=
  let b := df.getD i default
  match i with
  | 0 => b.high - b.low
  | j + 1 =>
    let pc := (df.getD j default).close
    max (b.high - b.low) (max |b.high - pc| |b.low - pc|)

/-- Embedding of `tr.ewm(span=kc_length, adjust=False).mean()` at row `i`:
`atr 0 = tr 0`, `atr (i+1) = (1 - α) * atr i + α * tr (i+1)` with
`α = 2 / (span + 1) = 2 / 21`. -/
def atrAt (df : List Bar) : ℕ → ℚ
  | 0 => trAt df 0
  | i + 1 => (1 - 2 / (kc_length + 1 : ℚ)) * atrAt df i + (2 / (kc_length + 1 : ℚ)) * trAt df (i + 1)

/-- Embedding of `squeeze_on = (bb_lower > kc_lower) & (bb_upper < kc_upper)` at row
`i`, for channel multiplier `m`.

With the shared window, both band comparisons reduce to
`bb_mult * sqrt(var) < m * atr`; the embedding stores the equivalent
exact test `0 < m * atr ∧ bb_mult² * var < (m * atr)²`
(`squeeze_on_iff_bands` proves the equivalence with the literal real
comparison).  Rows whose rolling window is incomplete (`i + 1 <
bb_length`) carry NaN bands in pandas, and NaN comparisons are `False`,
hence the length guard. -/
def squeeze_on (df : List Bar) (m : ℚ) (i : ℕ) : Bool :=
  decide (bb_length ≤ i + 1) &&
  decide (0 < m * atrAt df i) &&
  decide (bb_mult ^ 2 * varAt df bb_length i < (m * atrAt df i) ^ 2)

/-- The literal Bollinger bands and Keltner channel of the source, over
`ℝ` (`bb_std` is a genuine square root). -/
noncomputable def bb_upperR (df : List Bar) (i : ℕ) : ℝ :=
  (meanAt df bb_length i : ℝ) + (bb_mult : ℝ) * Real.sqrt (varAt df bb_length i)

noncomputable def bb_lowerR (df : List Bar) (i : ℕ) : ℝ :=
  (meanAt df bb_length i : ℝ) - (bb_mult : ℝ) * Real.sqrt (varAt df bb_length i)

noncomputable def kc_upperR (df : List Bar) (m : ℚ) (i : ℕ) : ℝ :=
  (meanAt df kc_length i : ℝ) + (m : ℝ) * (atrAt df i : ℝ)

noncomputable def kc_lowerR (df : List Bar) (m : ℚ) (i : ℕ) : ℝ :=
  (meanAt df kc_length i : ℝ) - (m : ℝ) * (atrAt df i : ℝ)

theorem varAt_nonneg (df : List Bar) (len i : ℕ) : 0 ≤ varAt df len i := by
  unfold varAt
  apply div_nonneg _ (by positivity)
  apply List.sum_nonneg
  intro x hx
  simp only [List.mem_map] at hx
  obtain ⟨b, _, rfl⟩ := hx
  positivity

/-- The embedded squared squeeze test agrees with the literal band
comparison of the source: for rows with a complete window, `squeeze_on`
holds iff the Bollinger band lies strictly inside the Keltner channel. -/
theorem squeeze_on_iff_bands (df : List Bar) (m : ℚ) (i : ℕ) (hL : bb_length ≤ i + 1) :
    squeeze_on df m i = true ↔
      kc_lowerR df m i < bb_lowerR df i ∧ bb_upperR df i < kc_upperR df m i := by
  have hv : (0 : ℝ) ≤ (varAt df bb_length i : ℝ) := by
    exact_mod_cast varAt_nonneg df bb_length i
  have hs : (0 : ℝ) ≤ Real.sqrt (varAt df bb_length i) := Real.sqrt_nonneg _
  have hkcbb : (kc_length : ℕ) = bb_length := rfl
  constructor
  · intro h
    simp only [squeeze_on, Bool.and_eq_true, decide_eq_true_eq] at h
    obtain ⟨⟨-, h0⟩, hlt⟩ := h
    have h0R : (0 : ℝ) < (m : ℝ) * (atrAt df i : ℝ) := by exact_mod_cast h0
    have hltR : (bb_mult : ℝ) ^ 2 * (varAt df bb_length i : ℝ) <
        ((m : ℝ) * (atrAt df i : ℝ)) ^ 2 := by exact_mod_cast hlt
    have key : (bb_mult : ℝ) * Real.sqrt (varAt df bb_length i) <
        (m : ℝ) * (atrAt df i : ℝ) := by
      have hb : (0 : ℝ) < (bb_mult : ℝ) := by norm_num [bb_mult]
      nlinarith [Real.sq_sqrt hv, Real.sqrt_nonneg (varAt df bb_length i : ℝ),
        mul_nonneg hb.le hs]
    constructor
    · unfold kc_lowerR bb_lowerR
      rw [hkcbb]
      linarith
    · unfold bb_upperR kc_upperR
      rw [hkcbb]
      linarith
  · rintro ⟨h1, h2⟩
    unfold kc_lowerR bb_lowerR at h1
    unfold bb_upperR kc_upperR at h2
    rw [hkcbb] at h1 h2
    have key : (bb_mult : ℝ) * Real.sqrt (varAt df bb_length i) <
        (m : ℝ) * (atrAt df i : ℝ) := by linarith
    have h0R : (0 : ℝ) < (m : ℝ) * (atrAt df i : ℝ) := by
      have hb : (0 : ℝ) ≤ (bb_mult : ℝ) * Real.sqrt (varAt df bb_length i) := by
        have hb2 : (0 : ℝ) ≤ (bb_mult : ℝ) := by norm_num [bb_mult]
        positivity
      linarith
    have hsq : (bb_mult : ℝ) ^ 2 * (varAt df bb_length i : ℝ) <
        ((m : ℝ) * (atrAt df i : ℝ)) ^ 2 := by
      have hb : (0 : ℝ) ≤ (bb_mult : ℝ) * Real.sqrt (varAt df bb_length i) := by
        have hb2 : (0 : ℝ) ≤ (bb_mult : ℝ) := by norm_num [bb_mult]
        positivity
      nlinarith [Real.sq_sqrt hv]
    simp only [squeeze_on, Bool.and_eq_true, decide_eq_true_eq]
    refine ⟨⟨hL, ?_⟩, ?_⟩
    · exact_mod_cast h0R
    · exact_mod_cast hsq

/-- Maximum of a list of rationals (used for `high.rolling(12).max()`;
the windows the calculator reads are never empty). -/
def listMax : List ℚ → ℚ
  | [] => 0
  | a :: t => t.foldl max a

/-- Minimum of a list of rationals (`low.rolling(12).min()`). -/
def listMin : List ℚ → ℚ
  | [] => 0
  | a :: t => t.foldl min a

/-- Donchian midline at row `i`:
`(high.rolling(mom_length).max() + low.rolling(mom_length).min()) / 2`. -/
def donchian_mid (df : List Bar) (i : ℕ) : ℚ :=
  (listMax ((window df mom_length i).map Bar.high) +
    listMin ((window df mom_length i).map Bar.low)) / 2

/-- Embedding of `close.rolling(mom_length).mean()` at row `i`. -/
def sma_close (df : List Bar) (i : ℕ) : ℚ :=
  meanAt df mom_length i

/-- TTM midline: average of the Donchian midline and the SMA. -/
def ttm_midline (df : List Bar) (i : ℕ) : ℚ :=
  (donchian_mid df i + sma_close df i) / 2

/-- Deviation of Close from the TTM midline at row `i`. -/
def deviation (df : List Bar) (i : ℕ) : ℚ :=
  (df.getD i default).close - ttm_midline df i

/-- Sum of squared residuals of the line `x ↦ a * x + b` against the
points `(0, ys₀), …, (n-1, ys_{n-1})` — the least-squares objective that
`np.polyfit(X, x, 1)` minimizes. -/
def sse (ys : List ℚ) (a b : ℚ) : ℚ :=
  ∑ i ∈ Finset.range ys.length, (ys.getD i 0 - (a * i + b)) ^ 2

/-- The least-squares slope of `np.polyfit(np.arange(n), ys, 1)`:
`(n * Σ x y − Σ x * Σ y) / (n * Σ x² − (Σ x)²)`. -/
def linreg_slope (ys : List ℚ) : ℚ :=
  let n : ℚ := ys.length
  let sx : ℚ := ∑ i ∈ Finset.range ys.length, (i : ℚ)
  let sxx : ℚ := ∑ i ∈ Finset.range ys.length, (i : ℚ) ^ 2
  let sy : ℚ := ys.sum
  let sxy : ℚ := ∑ i ∈ Finset.range ys.length, (i : ℚ) * ys.getD i 0
  (n * sxy - sx * sy) / (n * sxx - sx ^ 2)

/-- The least-squares intercept: `(Σ y − slope * Σ x) / n`. -/
def linreg_intercept (ys : List ℚ) : ℚ :=
  let n : ℚ := ys.length
  let sx : ℚ := ∑ i ∈ Finset.range ys.length, (i : ℚ)
  (ys.sum - linreg_slope ys * sx) / n

/-- Embedding of `linreg_value` from the source: fit an OLS line to the window and
evaluate it at the last index; windows with fewer than 2 points give 0. -/
def linreg_value (ys : List ℚ) : ℚ :=
  if ys.length < 2 then 0
  else linreg_intercept ys + linreg_slope ys * (ys.length - 1 : ℕ)

/-- The `mom_length` deviations ending at row `i`
(the `deviation.rolling(mom_length)` window). -/
def devWindow (df : List Bar) (i : ℕ) : List ℚ :=
  (List.range mom_length).map (fun k => deviation df (i + 1 - mom_length + k))

/-- Embedding of `momentum = deviation.rolling(mom_length).apply(linreg_value)`
at row `i`.  (The calculator only reads this at the last two rows, where
the guard `len(df) ≥ 25` makes every deviation in the window a real
number; earlier rows are NaN in pandas and are never read.) -/
def momentumAt (df : List Bar) (i : ℕ) : ℚ :=
  linreg_value (devWindow df i)

/-- Fire direction of a squeeze release. -/
inductive Direction where
  | GREEN
  | RED
deriving DecidableEq, Repr

/-- Count of consecutive rows with `squeeze_on` true, walking backward
from row `p` for at most `fuel` rows — the embedding of the
`for i in range(start_idx, min(50, len(squeeze_on)))` loop. -/
def squeezeRun (df : List Bar) (m : ℚ) (p : ℕ) : ℕ → ℕ
  | 0 => 0
  | fuel + 1 => if squeeze_on df m p then squeezeRun df m (p - 1) fuel + 1 else 0

/-- The fields of the dict returned by `calculate_weekly_squeeze`.
`squeeze_history`, `bar_dates`, `data_stale` and `last_bar_date` are
derived from bar timestamps and the wall clock, which the embedding does
not model; no claim reads them. -/
structure Verdict where
  squeeze_on : Bool
  prev_squeeze : Bool
  squeeze_fired : Bool
  fire_direction : Option Direction
  momentum : ℚ
  momentum_accel : ℚ
  bars_in_squeeze : ℕ
  ready : Bool
  momentum_rising : Bool
  momentum_positive : Bool
  current_price : ℚ
  prev_close : ℚ
deriving DecidableEq, Repr

/-- Embedding of `calculate_weekly_squeeze` at its default configuration.  Returns
`none` ("insufficient data") when the series is shorter than
`max(bb_length, kc_length, mom_length) + 5 = 25` bars.  Under that guard
every series position the source reads exists and every pandas value it
reads is a number, so the source's residual `if len(...) > k` and
`pd.isna` fallbacks are dead and elided. -/
def calculate_weekly_squeeze (df : List Bar) : Option Verdict :=
  if df.length < max (max bb_length kc_length) mom_length + 5 then none
  else
    let n := df.length
    let current_squeeze := squeeze_on df kc_mult (n - 1)
    let prev_squeeze := squeeze_on df kc_mult (n - 2)
    let current_mom := momentumAt df (n - 1)
    let prev_mom := momentumAt df (n - 2)
    let squeeze_fired := prev_squeeze && !current_squeeze
    let start_idx : ℕ := if squeeze_fired then 2 else 1
    let bars_in_squeeze := squeezeRun df kc_mult (n - start_idx) (min 50 n - start_idx)
    some
      { squeeze_on := current_squeeze
        prev_squeeze := prev_squeeze
        squeeze_fired := squeeze_fired
        fire_direction :=
          if squeeze_fired then some (if 0 < current_mom then .GREEN else .RED) else none
        momentum := current_mom
        momentum_accel := current_mom - prev_mom
        bars_in_squeeze := bars_in_squeeze
        ready := current_squeeze && decide (6 ≤ bars_in_squeeze)
        momentum_rising := decide (prev_mom < current_mom)
        momentum_positive := decide (0 < current_mom)
        current_price := (df.getD (n - 1) default).close
        prev_close := (df.getD (n - 2) default).close }

/-- The per-symbol record handed to the orchestrator: the verdict dict
with `symbol`, `sector` and `weekly_change_pct` added by
`analyze_symbol`. -/
structure Stock extends Verdict where
  symbol : String
  sector : String
  weekly_change_pct : ℚ
deriving DecidableEq, Repr

/-- Embedding of `analyze_symbol`: fetch (modelled as an `Option` input — a fetch
failure, an exception, or too little data all yield `none` through the
source's `try/except` and `None` checks), run the calculator, then attach
symbol, sector and the guarded weekly percent change. -/
def analyze_symbol (symbol sector : String) (fetched : Option (List Bar)) : Option Stock :=
  match fetched with
  | none => none
  | some df =>
    match calculate_weekly_squeeze df with
    | none => none
    | some v =>
      some
        { toVerdict := v
          symbol := symbol
          sector := sector
          weekly_change_pct :=
            if 0 < v.prev_close then (v.current_price - v.prev_close) / v.prev_close * 100
            else 0 }

/-- What the orchestrator sees for one completed task: the future raised
(`err`, caught by `except: continue`), returned `None` (`noResult`,
skipped by `if result is None: continue`), or returned a record. -/
inductive Outcome where
  | err
  | noResult
  | ok (s : Stock)
deriving DecidableEq, Repr

/-- The records of the successfully completed tasks, in completion
order. -/
def oks (results : List Outcome) : List Stock :=
  results.filterMap fun o =>
    match o with
    | .ok s => some s
    | _ => none

/-- Bucket tests, in the source's `if/elif` precedence. -/
def isFiredGreen (s : Stock) : Bool :=
  s.squeeze_fired && decide (s.fire_direction = some .GREEN)

def isFiredRed (s : Stock) : Bool :=
  s.squeeze_fired && !decide (s.fire_direction = some .GREEN)

def isReady (s : Stock) : Bool :=
  !s.squeeze_fired && s.ready

def isInSqueeze (s : Stock) : Bool :=
  !s.squeeze_fired && !s.ready && s.squeeze_on

/-- The four result buckets of one scan. -/
structure ScanResult where
  fired_green : List Stock
  fired_red : List Stock
  ready_to_fire : List Stock
  in_squeeze : List Stock
deriving DecidableEq, Repr

/-- Descending-by-momentum comparison (Python
`sort(key=momentum, reverse=True)` is a stable descending sort, matched
by `mergeSort` with this total `le`). -/
def momDesc (a b : Stock) : Bool := decide (b.momentum ≤ a.momentum)

def momAsc (a b : Stock) : Bool := decide (a.momentum ≤ b.momentum)

def barsDesc (a b : Stock) : Bool := decide (b.bars_in_squeeze ≤ a.bars_in_squeeze)

/-- Embedding of `scan_for_squeeze_fires`, with the worker pool abstracted to the list
of task outcomes in completion order: failed tasks are skipped, each
record is appended to the bucket chosen by the `if/elif` chain, and each
bucket is sorted at the end. -/
def scan_for_squeeze_fires (results : List Outcome) : ScanResult :=
  let okList := oks results
  { fired_green := (okList.filter isFiredGreen).mergeSort momDesc
    fired_red := (okList.filter isFiredRed).mergeSort momAsc
    ready_to_fire := (okList.filter isReady).mergeSort barsDesc
    in_squeeze := (okList.filter isInSqueeze).mergeSort momDesc }

/-- Embedding of `calculate_sunday_score`: four independently capped sub-scores. -/
def calculate_sunday_score (stock : Stock) : ℚ :=
  let mom_score := min (|stock.momentum| / 30 * 40) 40
  let accel_score := min (max stock.momentum_accel 0 / 5 * 20) 20
  let bars_score := min ((stock.bars_in_squeeze : ℚ) / 12 * 20) 20
  let weekly_score := min (|stock.weekly_change_pct| / 10 * 20) 20
  mom_score + accel_score + bars_score + weekly_score

/-- A Python float value: a finite number (exact rational here), NaN, or
an infinity.  The two infinities are not distinguished; no claim needs
the sign. -/
inductive PyFloat where
  | num (q : ℚ)
  | nan
  | inf
deriving DecidableEq, Repr

/-- What `float(s)` does to a string: parse a finite number, parse
`"nan"`/`"inf"`, or raise `ValueError`. -/
inductive PyStr where
  | num (q : ℚ)
  | nan
  | inf
  | unparseable
deriving DecidableEq, Repr

/-- A value handed to `sanitize_number`: `None`, an `int`, a
`float`/`np.number`, a `str`, or any other object (which falls through
every `isinstance` to the final `return 0.0`). -/
inductive PyVal where
  | none
  | int (n : ℤ)
  | float (x : PyFloat)
  | str (s : PyStr)
  | other
deriving DecidableEq, Repr

/-- Round half to even (the rounding of Python's built-in `round`). -/
def rhe (x : ℚ) : ℤ :=
  let f := ⌊x⌋
  if x - f < 1 / 2 then f
  else if 1 / 2 < x - f then f + 1
  else if Even f then f else f + 1

/-- Embedding of Python `round(q, 4)`. -/
def round4 (q : ℚ) : ℚ := (rhe (q * 10000) : ℚ) / 10000

/-- Embedding of `sanitize_number`.  Note the source's branch order: a `str` is
converted by `float(val)` and returned immediately — before the
NaN/Infinity check and without rounding; an unparseable string raises
inside the `try` and the handler returns `0.0`. -/
def sanitize_number : PyVal → PyFloat
  | .none => .num 0
  | .str (.num q) => .num q
  | .str .nan => .nan
  | .str .inf => .inf
  | .str .unparseable => .num 0
  | .int n => .num (round4 n)
  | .float (.num q) => .num (round4 q)
  | .float .nan => .num 0
  | .float .inf => .num 0
  | .other => .num 0

/-- Re-inject a sanitizer output as a Python value (a `float`). -/
def PyFloat.toVal : PyFloat → PyVal
  | .num q => .float (.num q)
  | .nan => .float .nan
  | .inf => .float .inf

/-- The compression tiers of the spec's tiered squeeze variant. -/
inductive CompressionTier where
  | NONE
  | LOW
  | MID
  | HIGH
deriving DecidableEq, Repr

/-- Modelled from the spec: the tiered HIGH/MID/LOW Squeeze State
Calculator (the repository's tiered indicator variant is not among the
provided source files; `weekend_squeeze_scanner.py` keeps only the
single-multiplier test).  Three channels at multipliers 1.5 (LOW), 1.2
(MID), 1.0 (HIGH) over the same ATR and midline as the source's channel,
assigned with priority HIGH > MID > LOW. -/
def compression_tier (df : List Bar) (i : ℕ) : CompressionTier :=
  if squeeze_on df 1 i then .HIGH
  else if squeeze_on df (6 / 5) i then .MID
  else if squeeze_on df (3 / 2) i then .LOW
  else .NONE

/-- Modelled from the spec: meaningful compression = tier HIGH or MID. -/
def meaningful_on (df : List Bar) (i : ℕ) : Bool :=
  match compression_tier df i with
  | .HIGH => true
  | .MID => true
  | _ => false

/-- Unbounded consecutive-compression run: walk backward from row `p`
counting rows with `squeeze_on`, stopping at the first row where it is
off (or at the start of the series). -/
def runDown (df : List Bar) (m : ℚ) : ℕ → ℕ
  | 0 => if squeeze_on df m 0 then 1 else 0
  | p + 1 => if squeeze_on df m (p + 1) then runDown df m p + 1 else 0

/-- Modelled from the spec: the claim's reading of the bars-in-compression
scan — count consecutive compressed bars backward from the bar preceding
"now" (two back on a fire), "stopping at the first non-compressed bar or
after 50 bars (hard cap)", i.e. a cap of 50 counted bars.  Used only to
compare the claim's wording against the code's loop bound. -/
def claim_bars_in_compression (df : List Bar) : ℕ :=
  let n := df.length
  let current_squeeze := squeeze_on df kc_mult (n - 1)
  let prev_squeeze := squeeze_on df kc_mult (n - 2)
  let start_idx : ℕ := if prev_squeeze && !current_squeeze then 2 else 1
  min (runDown df kc_mult (n - start_idx)) 50

instance : Inhabited Verdict :=
  ⟨{ squeeze_on := false, prev_squeeze := false, squeeze_fired := false,
     fire_direction := none, momentum := 0, momentum_accel := 0,
     bars_in_squeeze := 0, ready := false, momentum_rising := false,
     momentum_positive := false, current_price := 0, prev_close := 0 }⟩

/-- A bar with the given close, high one above and low one below. -/
def constBar (c : ℚ) : Bar := ⟨c + 1, c - 1, c⟩

/-- Concrete 40-bar series: flat at 100 with volatility spikes at rows 17
and 39.  Rows 37 and 38 are the only squeezed rows before the final row,
so the squeeze fires at row 39 after just 2 bars of compression. -/
def exShortRun : List Bar :=
  (List.range 40).map (fun i => constBar (if i = 17 ∨ i = 39 then 200 else 100))

/-- The verdict of the calculator on `exShortRun`. -/
def vShortRun : Verdict := (calculate_weekly_squeeze exShortRun).getD default

/-- Concrete 40-bar series realizing the spec's Scenario 1 shape: flat at
100 with spikes at rows 9 and 39, giving exactly 10 squeezed bars
(rows 29–38) before the release at row 39, with positive momentum. -/
def exTenBars : List Bar :=
  (List.range 40).map (fun i => constBar (if i = 9 ∨ i = 39 then 200 else 100))

/-- The verdict of the calculator on `exTenBars`. -/
def vTenBars : Verdict := (calculate_weekly_squeeze exTenBars).getD default

/-- Concrete 75-bar series: flat at 100 until a spike at the last row, so
rows 19–73 (55 rows) are all squeezed and the squeeze fires at row 74
with a run far longer than any cap. -/
def exLongRun : List Bar :=
  (List.range 75).map (fun i => constBar (if i = 74 then 200 else 100))

/-- A 25-bar constant series (the shortest length the calculator
accepts). -/
def exFlat : List Bar := (List.range 25).map (fun _ => constBar 100)

/-- The verdict of the calculator on `exFlat`. -/
def vFlat : Verdict := (calculate_weekly_squeeze exFlat).getD default

/-- The record `analyze_symbol` produces for `exFlat`. -/
def stFlat : Stock := (analyze_symbol "FLAT" "Unknown" (some exFlat)).getD
  ⟨default, "", "", 0⟩

/-- A fired-GREEN record with momentum 5 (ties with `stockTieB`). -/
def stockTieA : Stock :=
  { squeeze_on := false, prev_squeeze := true, squeeze_fired := true,
    fire_direction := some .GREEN, momentum := 5, momentum_accel := 1,
    bars_in_squeeze := 8, ready := false, momentum_rising := true,
    momentum_positive := true, current_price := 10, prev_close := 9,
    symbol := "AAA", sector := "Tech", weekly_change_pct := 3 }

/-- A second fired-GREEN record with the same momentum as `stockTieA`
but a different symbol. -/
def stockTieB : Stock :=
  { stockTieA with symbol := "BBB" }

/-- A fired-GREEN record with momentum 7 (distinct keys case). -/
def stockHi : Stock :=
  { stockTieA with symbol := "HI", momentum := 7 }

/-- A fired-GREEN record with momentum 2 (distinct keys case). -/
def stockLo : Stock :=
  { stockTieA with symbol := "LO", momentum := 2 }

/-- The record of the spec's Scenario 4: momentum 35, acceleration 6,
12 bars of compression, 12% weekly change. -/
def stockScenario4 : Stock :=
  { squeeze_on := false, prev_squeeze := true, squeeze_fired := true,
    fire_direction := some .GREEN, momentum := 35, momentum_accel := 6,
    bars_in_squeeze := 12, ready := false, momentum_rising := true,
    momentum_positive := true, current_price := 50, prev_close := 45,
    symbol := "SC4", sector := "Tech", weekly_change_pct := 12 }

/-! ## Helper lemmas -/

/-- The three channels are nested: compression inside a tighter channel
implies compression inside any wider one. -/
theorem squeeze_on_mono (df : List Bar) {m mw : ℚ} (i : ℕ) (hm : 0 < m) (hmm : m ≤ mw)
    (h : squeeze_on df m i = true) : squeeze_on df mw i = true := by
  simp only [squeeze_on, Bool.and_eq_true, decide_eq_true_eq] at h ⊢
  obtain ⟨⟨hL, h0⟩, hlt⟩ := h
  have hatr : 0 < atrAt df i := by
    rcases mul_pos_iff.mp h0 with ⟨-, h⟩ | ⟨hneg, -⟩
    · exact h
    · exact absurd hm (not_lt.mpr hneg.le)
  have hmw : m * atrAt df i ≤ mw * atrAt df i :=
    mul_le_mul_of_nonneg_right hmm hatr.le
  refine ⟨⟨hL, lt_of_lt_of_le h0 hmw⟩, lt_of_lt_of_le hlt ?_⟩
  have h1 : 0 ≤ m * atrAt df i := h0.le
  nlinarith

/-- Meaningful compression in the spec-modelled tier assignment is
exactly the source's single test at the 1.2 multiplier. -/
theorem meaningful_on_eq (df : List Bar) (i : ℕ) :
    meaningful_on df i = squeeze_on df kc_mult i := by
  have hkc : kc_mult = 6 / 5 := rfl
  by_cases h1 : squeeze_on df 1 i = true
  · have h2 : squeeze_on df (6 / 5) i = true :=
      squeeze_on_mono df i (by norm_num) (by norm_num) h1
    simp [meaningful_on, compression_tier, h1, h2, hkc]
  · by_cases h2 : squeeze_on df (6 / 5) i = true
    · simp [meaningful_on, compression_tier, h1, h2, hkc]
    · by_cases h3 : squeeze_on df (3 / 2) i = true
      · simp [meaningful_on, compression_tier, h1, h2, h3, hkc, Bool.not_eq_true] at *
      · simp [meaningful_on, compression_tier, h1, h2, h3, hkc, Bool.not_eq_true] at *

/-- The bounded backward scan is the unbounded run truncated by the
fuel, provided the scan cannot run past the start of the series. -/
theorem squeezeRun_eq_min (df : List Bar) (m : ℚ) :
    ∀ (fuel p : ℕ), fuel ≤ p → squeezeRun df m p fuel = min (runDown df m p) fuel := by
  intro fuel
  induction fuel with
  | zero => intro p _; simp [squeezeRun]
  | succ f ih =>
    intro p hfp
    obtain ⟨q, rfl⟩ : ∃ q, p = q + 1 := ⟨p - 1, by omega⟩
    by_cases h : squeeze_on df m (q + 1) = true
    · have : squeezeRun df m (q + 1) (f + 1) = squeezeRun df m q f + 1 := by
        simp [squeezeRun, h]
      rw [this, ih q (by omega)]
      have : runDown df m (q + 1) = runDown df m q + 1 := by
        simp [runDown, h]
      rw [this]
      omega
    · simp [squeezeRun, runDown, h]

/-- Unpacking of a successful `calculate_weekly_squeeze` call: length
guard and the fields the claims reason about. -/
theorem calc_spec (df : List Bar) (v : Verdict)
    (h : calculate_weekly_squeeze df = some v) :
    25 ≤ df.length ∧
    v.squeeze_on = squeeze_on df kc_mult (df.length - 1) ∧
    v.prev_squeeze = squeeze_on df kc_mult (df.length - 2) ∧
    v.squeeze_fired =
      (squeeze_on df kc_mult (df.length - 2) && !squeeze_on df kc_mult (df.length - 1)) ∧
    v.momentum = momentumAt df (df.length - 1) ∧
    v.bars_in_squeeze =
      squeezeRun df kc_mult (df.length - (if v.squeeze_fired then 2 else 1))
        (min 50 df.length - (if v.squeeze_fired then 2 else 1)) := by
  unfold calculate_weekly_squeeze at h
  split at h
  · exact absurd h (by simp)
  · next hlen =>
    obtain rfl := Option.some.inj h
    refine ⟨by simpa [bb_length, kc_length, mom_length] using hlen, rfl, rfl, rfl, rfl, rfl⟩

/-! ## Claims -/

set_option maxRecDepth 100000 in
unseal Rat.add Rat.mul Rat.sub Rat.inv in
/-- C1 (counterexample): the claim "a fire verdict satisfies
`bars_in_compression ≥ 6`; with fewer than 6 prior bars of meaningful
compression, no fire is reported" is false on the code: on `exShortRun`
(only rows 37–38 compressed before the release) the calculator reports
`squeeze_fired = true` with `bars_in_squeeze = 2`. -/
theorem c1_counterexample_fires_after_two_bars :
    (calculate_weekly_squeeze exShortRun).map
      (fun v => (v.squeeze_fired, v.bars_in_squeeze)) = some (true, 2) ∧ ¬(6 ≤ 2) := by
  constructor
  · decide
  · decide

/-- C1 (amended): a fire verdict does satisfy the release shape — the
squeeze (equivalently, spec-level meaningful compression) was on at the
previous bar and is off at the current bar — but the source imposes no
minimum duration: `squeeze_fired` is `prev_squeeze and not squeeze_on`
with no `bars_in_squeeze ≥ 6` requirement, and fires with fewer than 6
prior compressed bars are reported (see the counterexample). -/
theorem c1_fire_implies_prev_on_now_off (df : List Bar) (v : Verdict)
    (h : calculate_weekly_squeeze df = some v) (hf : v.squeeze_fired = true) :
    v.prev_squeeze = true ∧ v.squeeze_on = false ∧
    meaningful_on df (df.length - 2) = true ∧ meaningful_on df (df.length - 1) = false := by
  obtain ⟨-, hcur, hprev, hfired, -, -⟩ := calc_spec df v h
  rw [hfired] at hf
  rw [Bool.and_eq_true, Bool.not_eq_true'] at hf
  obtain ⟨hp, hc⟩ := hf
  refine ⟨hprev.trans hp, hcur.trans hc, ?_, ?_⟩
  · rw [meaningful_on_eq, hp]
  · rw [meaningful_on_eq, hc]

set_option maxRecDepth 100000 in
unseal Rat.add Rat.mul Rat.sub Rat.inv in
/-- C1 (witness): the amended theorem applied to the concrete fired
series `exShortRun`. -/
theorem c1_fire_implies_prev_on_now_off_witness :
    vShortRun.prev_squeeze = true ∧ vShortRun.squeeze_on = false ∧
    meaningful_on exShortRun (exShortRun.length - 2) = true ∧
    meaningful_on exShortRun (exShortRun.length - 1) = false :=
  c1_fire_implies_prev_on_now_off exShortRun vShortRun (by decide) (by decide)

/-- C2: the spec-modelled tiered calculator (three channels at
multipliers 1.5/1.2/1.0 over the source's midline and ATR) assigns every
bar exactly one tier, with priority HIGH > MID > LOW, and meaningful
compression (tier HIGH or MID) coincides with the source's single
`squeeze_on` test at multiplier `kc_mult = 1.2`. -/
theorem c2_tier_assignment_and_meaningful (df : List Bar) (i : ℕ) :
    (compression_tier df i = .HIGH ↔ squeeze_on df 1 i = true) ∧
    (compression_tier df i = .MID ↔
      (squeeze_on df (6 / 5) i = true ∧ squeeze_on df 1 i = false)) ∧
    (compression_tier df i = .LOW ↔
      (squeeze_on df (3 / 2) i = true ∧ squeeze_on df (6 / 5) i = false)) ∧
    (compression_tier df i = .NONE ↔ squeeze_on df (3 / 2) i = false) ∧
    (meaningful_on df i = true ↔
      (compression_tier df i = .HIGH ∨ compression_tier df i = .MID)) ∧
    meaningful_on df i = squeeze_on df kc_mult i := by
  have hm12 : ∀ h : squeeze_on df 1 i = true, squeeze_on df (6 / 5) i = true :=
    fun h => squeeze_on_mono df i (by norm_num) (by norm_num) h
  have hm23 : ∀ h : squeeze_on df (6 / 5) i = true, squeeze_on df (3 / 2) i = true :=
    fun h => squeeze_on_mono df i (by norm_num) (by norm_num) h
  refine ⟨?_, ?_, ?_, ?_, ?_, meaningful_on_eq df i⟩ <;>
    by_cases h1 : squeeze_on df 1 i = true <;>
      by_cases h2 : squeeze_on df (6 / 5) i = true <;>
        by_cases h3 : squeeze_on df (3 / 2) i = true <;>
          simp_all [compression_tier, meaningful_on]

set_option maxRecDepth 400000 in
unseal Rat.add Rat.mul Rat.sub Rat.inv in
/-- C3 (counterexample): the claim's "stopping at the first
non-compressed bar or after 50 bars (hard cap)" is false on the code: on
`exLongRun` (55 consecutive compressed rows before the fire) the loop
`range(start_idx, min(50, len))` examines offsets 2..49 only, so the
code reports 48 while the claim's 50-bar cap would report 50. -/
theorem c3_counterexample_cap_is_48 :
    (calculate_weekly_squeeze exLongRun).map (fun v => v.bars_in_squeeze) = some 48 ∧
    claim_bars_in_compression exLongRun = 50 ∧ (48 : ℕ) ≠ 50 := by
  refine ⟨by decide, by decide, by decide⟩

set_option maxRecDepth 100000 in
unseal Rat.add Rat.mul Rat.sub Rat.inv in
/-- C3 (amended): `bars_in_squeeze` is the backward scan from the bar
preceding "now" (two back on a fire) counting consecutive compressed
bars, stopping at the first non-compressed bar or at the end of the
examined offsets `start_idx .. min(50, n) - 1` — hence at most 48
counted bars when a fire is detected and at most 49 otherwise, not 50;
the 10-compressed-bars scenario is as claimed: `fired = true`,
`fire_direction = GREEN`, `bars_in_compression = 10`. -/
theorem c3_bars_count_characterization :
    (∀ (df : List Bar) (v : Verdict), calculate_weekly_squeeze df = some v →
      v.bars_in_squeeze =
        min (runDown df kc_mult (df.length - (if v.squeeze_fired then 2 else 1)))
          (min 50 df.length - (if v.squeeze_fired then 2 else 1))) ∧
    (calculate_weekly_squeeze exTenBars).map
      (fun v => (v.squeeze_fired, v.fire_direction, v.bars_in_squeeze)) =
      some (true, some .GREEN, 10) := by
  constructor
  · intro df v h
    obtain ⟨-, -, -, -, -, hbars⟩ := calc_spec df v h
    rw [hbars]
    exact squeezeRun_eq_min df kc_mult _ _
      (Nat.sub_le_sub_right (min_le_right 50 df.length) _)
  · decide

set_option maxRecDepth 100000 in
unseal Rat.add Rat.mul Rat.sub Rat.inv in
/-- C3 (witness): the scan characterization applied to the concrete
Scenario-1 series `exTenBars`. -/
theorem c3_bars_count_characterization_witness :
    vTenBars.bars_in_squeeze =
      min (runDown exTenBars kc_mult
          (exTenBars.length - (if vTenBars.squeeze_fired then 2 else 1)))
        (min 50 exTenBars.length - (if vTenBars.squeeze_fired then 2 else 1)) :=
  c3_bars_count_characterization.1 exTenBars vTenBars (by decide)

/-- C6: the composite Sunday score is the sum of four independently
clamped sub-scores, each within its cap, hence the total is within
[0, 100]; on the spec's Scenario-4 record (momentum 35, acceleration 6,
12 bars, 12% weekly change) the score is exactly 100. -/
theorem c6_sunday_score_bounds :
    (∀ st : Stock,
      0 ≤ min (|st.momentum| / 30 * 40) 40 ∧ min (|st.momentum| / 30 * 40) 40 ≤ 40 ∧
      0 ≤ min (max st.momentum_accel 0 / 5 * 20) 20 ∧
        min (max st.momentum_accel 0 / 5 * 20) 20 ≤ 20 ∧
      0 ≤ min ((st.bars_in_squeeze : ℚ) / 12 * 20) 20 ∧
        min ((st.bars_in_squeeze : ℚ) / 12 * 20) 20 ≤ 20 ∧
      0 ≤ min (|st.weekly_change_pct| / 10 * 20) 20 ∧
        min (|st.weekly_change_pct| / 10 * 20) 20 ≤ 20 ∧
      0 ≤ calculate_sunday_score st ∧ calculate_sunday_score st ≤ 100) ∧
    calculate_sunday_score stockScenario4 = 100 := by
  constructor
  · intro st
    have haccel : (0 : ℚ) ≤ max st.momentum_accel 0 := le_max_right _ _
    have h1 : (0 : ℚ) ≤ min (|st.momentum| / 30 * 40) 40 :=
      le_min (by positivity) (by norm_num)
    have h2 : min (|st.momentum| / 30 * 40) 40 ≤ 40 := min_le_right _ _
    have h3 : (0 : ℚ) ≤ min (max st.momentum_accel 0 / 5 * 20) 20 :=
      le_min (by positivity) (by norm_num)
    have h4 : min (max st.momentum_accel 0 / 5 * 20) 20 ≤ 20 := min_le_right _ _
    have h5 : (0 : ℚ) ≤ min ((st.bars_in_squeeze : ℚ) / 12 * 20) 20 :=
      le_min (by positivity) (by norm_num)
    have h6 : min ((st.bars_in_squeeze : ℚ) / 12 * 20) 20 ≤ 20 := min_le_right _ _
    have h7 : (0 : ℚ) ≤ min (|st.weekly_change_pct| / 10 * 20) 20 :=
      le_min (by positivity) (by norm_num)
    have h8 : min (|st.weekly_change_pct| / 10 * 20) 20 ≤ 20 := min_le_right _ _
    refine ⟨h1, h2, h3, h4, h5, h6, h7, h8, ?_, ?_⟩
    · unfold calculate_sunday_score
      linarith
    · unfold calculate_sunday_score
      linarith
  · unfold calculate_sunday_score stockScenario4
    norm_num

/-- Rounding half to even of an integer is the integer itself. -/
theorem rhe_intCast (n : ℤ) : rhe (n : ℚ) = n := by
  unfold rhe
  norm_num

/-- Rounding an integer-valued rational times `10⁻⁴` is exact. -/
theorem round4_intCast (n : ℤ) : round4 (n : ℚ) = n := by
  unfold round4
  have : ((n : ℚ) * 10000) = ((n * 10000 : ℤ) : ℚ) := by push_cast; ring
  rw [this, rhe_intCast]
  push_cast
  field_simp

/-- Rounding to 4 decimal places is idempotent. -/
theorem round4_round4 (q : ℚ) : round4 (round4 q) = round4 q := by
  unfold round4
  rw [div_mul_cancel₀ _ (by norm_num : (10000 : ℚ) ≠ 0), rhe_intCast]

/-- C8 (counterexample): the sanitizer claim fails on the string path of
the code: `float(val)` is returned immediately for a `str`, so a
parseable string is preserved at full precision (`"0.00001"` stays
`1/100000`, whose 4-decimal rounding is `0`), and the strings
`"inf"`/`"nan"` bypass the finiteness check (`"inf"` comes back as
Infinity, not `0.0`). -/
theorem c8_counterexample_string_path :
    sanitize_number (.str (.num (1 / 100000))) = .num (1 / 100000) ∧
    round4 (1 / 100000) = 0 ∧ (1 / 100000 : ℚ) ≠ 0 ∧
    sanitize_number (.str .inf) = .inf ∧ PyFloat.inf ≠ .num 0 := by
  refine ⟨rfl, ?_, by norm_num, rfl, by simp⟩
  unfold round4 rhe
  norm_num

/-- C8 (amended): the sanitizer maps `None`, float NaN, float Infinity,
unparseable values and foreign objects to `0.0`, and rounds every
numeric (non-`str`) input to 4 decimal places; a parseable string
however is converted and returned as-is — full precision, and the
strings `"nan"`/`"inf"` pass through unchecked — so idempotence holds
for the outputs produced from non-string inputs. -/
theorem c8_sanitize_characterization :
    sanitize_number .none = .num 0 ∧
    sanitize_number (.float .nan) = .num 0 ∧
    sanitize_number (.float .inf) = .num 0 ∧
    sanitize_number (.str .unparseable) = .num 0 ∧
    sanitize_number .other = .num 0 ∧
    (∀ q : ℚ, sanitize_number (.float (.num q)) = .num (round4 q)) ∧
    (∀ n : ℤ, sanitize_number (.int n) = .num (round4 n)) ∧
    (∀ q : ℚ, sanitize_number (.str (.num q)) = .num q) ∧
    (∀ v : PyVal, (∀ s, v ≠ .str s) →
      sanitize_number ((sanitize_number v).toVal) = sanitize_number v) := by
  have hz : round4 ((0 : ℚ)) = 0 := by
    have := round4_intCast 0
    simpa using this
  refine ⟨rfl, rfl, rfl, rfl, rfl, fun q => rfl, fun n => rfl, fun q => rfl, ?_⟩
  intro v hv
  cases v with
  | none => simp [sanitize_number, PyFloat.toVal, hz]
  | int n => simp [sanitize_number, PyFloat.toVal, round4_round4]
  | float x =>
    cases x with
    | num q => simp [sanitize_number, PyFloat.toVal, round4_round4]
    | nan => simp [sanitize_number, PyFloat.toVal, hz]
    | inf => simp [sanitize_number, PyFloat.toVal, hz]
  | str s => exact absurd rfl (hv s)
  | other => simp [sanitize_number, PyFloat.toVal, hz]

/-- C8 (witness): idempotence applied to the concrete float input `1`. -/
theorem c8_sanitize_characterization_witness :
    sanitize_number ((sanitize_number (.float (.num 1))).toVal) =
      sanitize_number (.float (.num 1)) :=
  c8_sanitize_characterization.2.2.2.2.2.2.2.2 (.float (.num 1))
    (fun _ h => PyVal.noConfusion h)

/-- C10: `analyze_symbol` guards the weekly percent-change division —
whenever the prior weekly close is not strictly positive the field is 0
rather than a quotient, and on the positive path the field is exactly
the percent change (stated multiplicatively to avoid the embedded
field's total division). -/
theorem c10_weekly_change_guard (symbol sector : String)
    (fetched : Option (List Bar)) (st : Stock)
    (h : analyze_symbol symbol sector fetched = some st) :
    (st.prev_close ≤ 0 → st.weekly_change_pct = 0) ∧
    (0 < st.prev_close →
      st.weekly_change_pct * st.prev_close = (st.current_price - st.prev_close) * 100) := by
  cases fetched with
  | none => exact absurd h (by simp [analyze_symbol])
  | some df =>
    simp only [analyze_symbol] at h
    cases hcalc : calculate_weekly_squeeze df with
    | none => rw [hcalc] at h; exact absurd h (by simp)
    | some v =>
      rw [hcalc] at h
      simp only [Option.some.injEq] at h
      subst h
      constructor
      · intro hle
        simp only
        rw [if_neg (not_lt.mpr hle)]
      · intro hpos
        simp only
        rw [if_pos hpos]
        field_simp

set_option maxRecDepth 100000 in
unseal Rat.add Rat.mul Rat.sub Rat.inv in
/-- C10 (witness): the guard theorem applied to the concrete series
`exFlat` (prior close 100). -/
theorem c10_weekly_change_guard_witness :
    (stFlat.prev_close ≤ 0 → stFlat.weekly_change_pct = 0) ∧
    (0 < stFlat.prev_close →
      stFlat.weekly_change_pct * stFlat.prev_close =
        (stFlat.current_price - stFlat.prev_close) * 100) :=
  c10_weekly_change_guard "FLAT" "Unknown" (some exFlat) stFlat (by decide)

/-- Membership in the successfully-completed list is exactly an `ok`
outcome in the task list. -/
theorem mem_oks {results : List Outcome} {s : Stock} :
    s ∈ oks results ↔ Outcome.ok s ∈ results := by
  unfold oks
  rw [List.mem_filterMap]
  constructor
  · rintro ⟨a, ha, hfa⟩
    cases a <;> simp_all
  · intro h
    exact ⟨.ok s, h, rfl⟩

theorem momDesc_trans : ∀ a b c : Stock, momDesc a b → momDesc b c → momDesc a c := by
  intro a b c hab hbc
  simp only [momDesc, decide_eq_true_eq] at *
  exact le_trans hbc hab

theorem momDesc_total : ∀ a b : Stock, momDesc a b || momDesc b a := by
  intro a b
  simp only [momDesc, Bool.or_eq_true, decide_eq_true_eq]
  exact le_total _ _

theorem momAsc_trans : ∀ a b c : Stock, momAsc a b → momAsc b c → momAsc a c := by
  intro a b c hab hbc
  simp only [momAsc, decide_eq_true_eq] at *
  exact le_trans hab hbc

theorem momAsc_total : ∀ a b : Stock, momAsc a b || momAsc b a := by
  intro a b
  simp only [momAsc, Bool.or_eq_true, decide_eq_true_eq]
  exact le_total _ _

theorem barsDesc_trans : ∀ a b c : Stock, barsDesc a b → barsDesc b c → barsDesc a c := by
  intro a b c hab hbc
  simp only [barsDesc, decide_eq_true_eq] at *
  exact le_trans hbc hab

theorem barsDesc_total : ∀ a b : Stock, barsDesc a b || barsDesc b a := by
  intro a b
  simp only [barsDesc, Bool.or_eq_true, decide_eq_true_eq]
  exact le_total _ _

/-- Two sorted lists that are permutations of each other and whose
order relation is antisymmetric on the first list's members are equal
(a local-antisymmetry version of `eq_of_perm_of_sorted`). -/
theorem eq_of_perm_of_pairwise {α : Type} {r : α → α → Prop} :
    ∀ {l₁ l₂ : List α}, l₁.Perm l₂ → l₁.Pairwise r → l₂.Pairwise r →
      (∀ a b, a ∈ l₁ → b ∈ l₁ → r a b → r b a → a = b) → l₁ = l₂ := by
  intro l₁
  induction l₁ with
  | nil => intro l₂ hp _ _ _; exact hp.nil_eq
  | cons a t ih =>
    intro l₂ hp h₁ h₂ anti
    cases l₂ with
    | nil => exact absurd hp.symm.nil_eq (by simp)
    | cons b t₂ =>
      by_cases hab : a = b
      · subst hab
        have hpt : t.Perm t₂ := hp.cons_inv
        have ht := ih hpt (List.pairwise_cons.mp h₁).2 (List.pairwise_cons.mp h₂).2
          (fun x y hx hy => anti x y (List.mem_cons_of_mem _ hx) (List.mem_cons_of_mem _ hy))
        rw [ht]
      · have ha2 : a ∈ b :: t₂ := hp.mem_iff.mp (by simp)
        have hat2 : a ∈ t₂ := by
          rcases List.mem_cons.mp ha2 with h | h
          · exact absurd h hab
          · exact h
        have hbt : b ∈ t := by
          have hb1 : b ∈ a :: t := hp.mem_iff.mpr (by simp)
          rcases List.mem_cons.mp hb1 with h | h
          · exact absurd h.symm hab
          · exact h
        have hrab : r a b := (List.pairwise_cons.mp h₁).1 b hbt
        have hrba : r b a := (List.pairwise_cons.mp h₂).1 a hat2
        exact absurd (anti a b (by simp) (List.mem_cons_of_mem _ hbt) hrab hrba) hab

/-- Pairwise-distinct sort keys make the key function injective on the
list's members. -/
theorem pairwise_key_injective {α β : Type} {l : List α} {key : α → β}
    (h : l.Pairwise (fun a b => key a ≠ key b)) :
    ∀ a b, a ∈ l → b ∈ l → key a = key b → a = b := by
  intro a b ha hb hk
  by_contra hne
  have hsym : Symmetric (fun a b : α => key a ≠ key b) := fun x y hxy e => hxy e.symm
  exact (h.forall hsym ha hb hne) hk

/-- C4: each successfully analyzed record lands in at most one bucket,
membership follows the source's fired → ready → in-compression → excluded
precedence, and after aggregation each bucket is sorted with its key
(momentum descending for fired-bullish and in-compression, momentum
ascending for fired-bearish, duration descending for ready). -/
theorem c4_buckets_disjoint_and_sorted (results : List Outcome) (s : Stock) :
    ((s ∈ (scan_for_squeeze_fires results).fired_green ↔
        s ∈ oks results ∧ isFiredGreen s = true) ∧
      (s ∈ (scan_for_squeeze_fires results).fired_red ↔
        s ∈ oks results ∧ isFiredRed s = true) ∧
      (s ∈ (scan_for_squeeze_fires results).ready_to_fire ↔
        s ∈ oks results ∧ isReady s = true) ∧
      (s ∈ (scan_for_squeeze_fires results).in_squeeze ↔
        s ∈ oks results ∧ isInSqueeze s = true)) ∧
    (s ∈ (scan_for_squeeze_fires results).fired_green →
      s ∉ (scan_for_squeeze_fires results).fired_red ∧
      s ∉ (scan_for_squeeze_fires results).ready_to_fire ∧
      s ∉ (scan_for_squeeze_fires results).in_squeeze) ∧
    (s ∈ (scan_for_squeeze_fires results).fired_red →
      s ∉ (scan_for_squeeze_fires results).ready_to_fire ∧
      s ∉ (scan_for_squeeze_fires results).in_squeeze) ∧
    (s ∈ (scan_for_squeeze_fires results).ready_to_fire →
      s ∉ (scan_for_squeeze_fires results).in_squeeze) ∧
    (scan_for_squeeze_fires results).fired_green.Sorted
      (fun a b => b.momentum ≤ a.momentum) ∧
    (scan_for_squeeze_fires results).fired_red.Sorted
      (fun a b => a.momentum ≤ b.momentum) ∧
    (scan_for_squeeze_fires results).ready_to_fire.Sorted
      (fun a b => b.bars_in_squeeze ≤ a.bars_in_squeeze) ∧
    (scan_for_squeeze_fires results).in_squeeze.Sorted
      (fun a b => b.momentum ≤ a.momentum) := by
  have hmem : ∀ (p : Stock → Bool) (le : Stock → Stock → Bool),
      s ∈ ((oks results).filter p).mergeSort le ↔ s ∈ oks results ∧ p s = true := by
    intro p le
    rw [List.mem_mergeSort, List.mem_filter]
  refine ⟨⟨hmem _ _, hmem _ _, hmem _ _, hmem _ _⟩, ?_, ?_, ?_, ?_, ?_, ?_, ?_⟩
  · intro hg
    obtain ⟨-, hp⟩ := (hmem isFiredGreen momDesc).mp hg
    refine ⟨?_, ?_, ?_⟩ <;> intro hmem2
    · obtain ⟨-, hq⟩ := (hmem isFiredRed momAsc).mp hmem2
      simp [isFiredGreen, isFiredRed] at hp hq
      simp_all
    · obtain ⟨-, hq⟩ := (hmem isReady barsDesc).mp hmem2
      simp [isFiredGreen, isReady] at hp hq
      simp_all
    · obtain ⟨-, hq⟩ := (hmem isInSqueeze momDesc).mp hmem2
      simp [isFiredGreen, isInSqueeze] at hp hq
      simp_all
  · intro hr
    obtain ⟨-, hp⟩ := (hmem isFiredRed momAsc).mp hr
    refine ⟨?_, ?_⟩ <;> intro hmem2
    · obtain ⟨-, hq⟩ := (hmem isReady barsDesc).mp hmem2
      simp [isFiredRed, isReady] at hp hq
      simp_all
    · obtain ⟨-, hq⟩ := (hmem isInSqueeze momDesc).mp hmem2
      simp [isFiredRed, isInSqueeze] at hp hq
      simp_all
  · intro hr
    obtain ⟨-, hp⟩ := (hmem isReady barsDesc).mp hr
    intro hmem2
    obtain ⟨-, hq⟩ := (hmem isInSqueeze momDesc).mp hmem2
    simp [isReady, isInSqueeze] at hp hq
    simp_all
  · exact (List.sorted_mergeSort momDesc_trans momDesc_total _).imp
      (fun h => by simpa [momDesc] using h)
  · exact (List.sorted_mergeSort momAsc_trans momAsc_total _).imp
      (fun h => by simpa [momAsc] using h)
  · exact (List.sorted_mergeSort barsDesc_trans barsDesc_total _).imp
      (fun h => by simpa [barsDesc] using h)
  · exact (List.sorted_mergeSort momDesc_trans momDesc_total _).imp
      (fun h => by simpa [momDesc] using h)

set_option maxRecDepth 10000 in
unseal Rat.add Rat.mul Rat.sub Rat.inv in
/-- C4 (witness): disjointness applied to a one-task scan whose record
fired GREEN. -/
theorem c4_buckets_disjoint_and_sorted_witness :
    stockTieA ∉ (scan_for_squeeze_fires [.ok stockTieA]).fired_red ∧
    stockTieA ∉ (scan_for_squeeze_fires [.ok stockTieA]).ready_to_fire ∧
    stockTieA ∉ (scan_for_squeeze_fires [.ok stockTieA]).in_squeeze :=
  (c4_buckets_disjoint_and_sorted [.ok stockTieA] stockTieA).2.1
    ((c4_buckets_disjoint_and_sorted [.ok stockTieA] stockTieA).1.1.mpr
      ⟨by simp [oks], by decide⟩)

/-- C5: a task that raised (`err`) or returned no result (`noResult`) is
silently skipped — deleting it from the completion list leaves the scan
result unchanged — while every successful record is present and bucketed
by its classification; membership in any bucket comes only from an `ok`
outcome.  (In the embedding the orchestrator is a total function, so no
exception escapes it.) -/
theorem c5_failed_tasks_skipped :
    (∀ (l₁ l₂ : List Outcome),
      scan_for_squeeze_fires (l₁ ++ .err :: l₂) = scan_for_squeeze_fires (l₁ ++ l₂)) ∧
    (∀ (l₁ l₂ : List Outcome),
      scan_for_squeeze_fires (l₁ ++ .noResult :: l₂) = scan_for_squeeze_fires (l₁ ++ l₂)) ∧
    (∀ (results : List Outcome) (s : Stock),
      (s ∈ (scan_for_squeeze_fires results).fired_green ∨
        s ∈ (scan_for_squeeze_fires results).fired_red ∨
        s ∈ (scan_for_squeeze_fires results).ready_to_fire ∨
        s ∈ (scan_for_squeeze_fires results).in_squeeze) → .ok s ∈ results) ∧
    (∀ (results : List Outcome) (s : Stock), .ok s ∈ results →
      (isFiredGreen s = true → s ∈ (scan_for_squeeze_fires results).fired_green) ∧
      (isFiredRed s = true → s ∈ (scan_for_squeeze_fires results).fired_red) ∧
      (isReady s = true → s ∈ (scan_for_squeeze_fires results).ready_to_fire) ∧
      (isInSqueeze s = true → s ∈ (scan_for_squeeze_fires results).in_squeeze)) := by
  have hoks_err : ∀ (l₁ l₂ : List Outcome), oks (l₁ ++ .err :: l₂) = oks (l₁ ++ l₂) := by
    intro l₁ l₂
    simp [oks, List.filterMap_append]
  have hoks_nr : ∀ (l₁ l₂ : List Outcome), oks (l₁ ++ .noResult :: l₂) = oks (l₁ ++ l₂) := by
    intro l₁ l₂
    simp [oks, List.filterMap_append]
  refine ⟨?_, ?_, ?_, ?_⟩
  · intro l₁ l₂
    unfold scan_for_squeeze_fires
    rw [hoks_err]
  · intro l₁ l₂
    unfold scan_for_squeeze_fires
    rw [hoks_nr]
  · intro results s h
    have : s ∈ oks results := by
      rcases h with h | h | h | h <;>
        exact (List.mem_filter.mp (List.mem_mergeSort.mp h)).1
    exact mem_oks.mp this
  · intro results s h
    have hs : s ∈ oks results := mem_oks.mpr h
    refine ⟨?_, ?_, ?_, ?_⟩ <;> intro hp <;>
      exact List.mem_mergeSort.mpr (List.mem_filter.mpr ⟨hs, hp⟩)

set_option maxRecDepth 10000 in
unseal Rat.add Rat.mul Rat.sub Rat.inv in
/-- C5 (witness): the bucketing direction applied to a concrete two-task
list in which one task failed. -/
theorem c5_failed_tasks_skipped_witness :
    stockTieA ∈ (scan_for_squeeze_fires [.err, .ok stockTieA]).fired_green :=
  ((c5_failed_tasks_skipped.2.2.2 [.err, .ok stockTieA] stockTieA (by simp)).1 (by decide))

set_option maxRecDepth 10000 in
unseal Rat.add Rat.mul Rat.sub Rat.inv in
/-- C7 (counterexample): strict two-run determinism over completion-order
permutations is false on the code: the post-hoc sort is stable, so ties
keep completion order.  `stockTieA`/`stockTieB` both fire GREEN with
equal momentum, and the two completion orders produce different
fired-bullish orders. -/
theorem c7_counterexample_tie_order :
    scan_for_squeeze_fires [.ok stockTieA, .ok stockTieB] ≠
      scan_for_squeeze_fires [.ok stockTieB, .ok stockTieA] := by
  have hA : (scan_for_squeeze_fires [.ok stockTieA, .ok stockTieB]).fired_green =
      [stockTieA, stockTieB] := by
    show ((oks [.ok stockTieA, .ok stockTieB]).filter isFiredGreen).mergeSort momDesc = _
    have hf : (oks [.ok stockTieA, .ok stockTieB]).filter isFiredGreen =
        [stockTieA, stockTieB] := by decide
    rw [hf]
    exact List.mergeSort_of_sorted (by decide)
  have hB : (scan_for_squeeze_fires [.ok stockTieB, .ok stockTieA]).fired_green =
      [stockTieB, stockTieA] := by
    show ((oks [.ok stockTieB, .ok stockTieA]).filter isFiredGreen).mergeSort momDesc = _
    have hf : (oks [.ok stockTieB, .ok stockTieA]).filter isFiredGreen =
        [stockTieB, stockTieA] := by decide
    rw [hf]
    exact List.mergeSort_of_sorted (by decide)
  intro h
  have := congrArg ScanResult.fired_green h
  rw [hA, hB] at this
  exact absurd this (by decide)

/-- C7 (amended): for any two completion orders of the same task set the
four buckets hold the same records (they are permutations of each
other), and whenever the bucket's sort keys are pairwise distinct the
within-bucket order is also identical; with tied keys the stable sort
preserves completion order, so strict order determinism can fail (see
the counterexample). -/
theorem c7_bucket_determinism (l₁ l₂ : List Outcome) (hp : l₁.Perm l₂) :
    ((scan_for_squeeze_fires l₁).fired_green.Perm
        (scan_for_squeeze_fires l₂).fired_green ∧
      (scan_for_squeeze_fires l₁).fired_red.Perm
        (scan_for_squeeze_fires l₂).fired_red ∧
      (scan_for_squeeze_fires l₁).ready_to_fire.Perm
        (scan_for_squeeze_fires l₂).ready_to_fire ∧
      (scan_for_squeeze_fires l₁).in_squeeze.Perm
        (scan_for_squeeze_fires l₂).in_squeeze) ∧
    ((scan_for_squeeze_fires l₁).fired_green.Pairwise
        (fun a b => a.momentum ≠ b.momentum) →
      (scan_for_squeeze_fires l₁).fired_green =
        (scan_for_squeeze_fires l₂).fired_green) ∧
    ((scan_for_squeeze_fires l₁).fired_red.Pairwise
        (fun a b => a.momentum ≠ b.momentum) →
      (scan_for_squeeze_fires l₁).fired_red = (scan_for_squeeze_fires l₂).fired_red) ∧
    ((scan_for_squeeze_fires l₁).ready_to_fire.Pairwise
        (fun a b => a.bars_in_squeeze ≠ b.bars_in_squeeze) →
      (scan_for_squeeze_fires l₁).ready_to_fire =
        (scan_for_squeeze_fires l₂).ready_to_fire) ∧
    ((scan_for_squeeze_fires l₁).in_squeeze.Pairwise
        (fun a b => a.momentum ≠ b.momentum) →
      (scan_for_squeeze_fires l₁).in_squeeze = (scan_for_squeeze_fires l₂).in_squeeze) := by
  have hoks : (oks l₁).Perm (oks l₂) := hp.filterMap _
  have hperm : ∀ (p : Stock → Bool) (le : Stock → Stock → Bool),
      (((oks l₁).filter p).mergeSort le).Perm (((oks l₂).filter p).mergeSort le) :=
    fun p le => ((List.mergeSort_perm _ _).trans (hoks.filter p)).trans
      (List.mergeSort_perm _ _).symm
  refine ⟨⟨hperm _ _, hperm _ _, hperm _ _, hperm _ _⟩, ?_, ?_, ?_, ?_⟩
  · intro hpw
    exact eq_of_perm_of_pairwise (hperm isFiredGreen momDesc)
      (List.sorted_mergeSort momDesc_trans momDesc_total _)
      (List.sorted_mergeSort momDesc_trans momDesc_total _)
      (fun a b ha hb hab hba => pairwise_key_injective hpw a b ha hb
        (le_antisymm (by simpa [momDesc] using hba) (by simpa [momDesc] using hab)))
  · intro hpw
    exact eq_of_perm_of_pairwise (hperm isFiredRed momAsc)
      (List.sorted_mergeSort momAsc_trans momAsc_total _)
      (List.sorted_mergeSort momAsc_trans momAsc_total _)
      (fun a b ha hb hab hba => pairwise_key_injective hpw a b ha hb
        (le_antisymm (by simpa [momAsc] using hab) (by simpa [momAsc] using hba)))
  · intro hpw
    exact eq_of_perm_of_pairwise (hperm isReady barsDesc)
      (List.sorted_mergeSort barsDesc_trans barsDesc_total _)
      (List.sorted_mergeSort barsDesc_trans barsDesc_total _)
      (fun a b ha hb hab hba => pairwise_key_injective hpw a b ha hb
        (le_antisymm (by simpa [barsDesc] using hba) (by simpa [barsDesc] using hab)))
  · intro hpw
    exact eq_of_perm_of_pairwise (hperm isInSqueeze momDesc)
      (List.sorted_mergeSort momDesc_trans momDesc_total _)
      (List.sorted_mergeSort momDesc_trans momDesc_total _)
      (fun a b ha hb hab hba => pairwise_key_injective hpw a b ha hb
        (le_antisymm (by simpa [momDesc] using hba) (by simpa [momDesc] using hab)))

set_option maxRecDepth 10000 in
unseal Rat.add Rat.mul Rat.sub Rat.inv in
/-- C7 (witness): determinism applied to two concrete completion orders
of two fired-GREEN records with distinct momenta. -/
theorem c7_bucket_determinism_witness :
    (scan_for_squeeze_fires [.ok stockHi, .ok stockLo]).fired_green =
      (scan_for_squeeze_fires [.ok stockLo, .ok stockHi]).fired_green := by
  have hfg : (scan_for_squeeze_fires [.ok stockHi, .ok stockLo]).fired_green =
      [stockHi, stockLo] := by
    show ((oks [.ok stockHi, .ok stockLo]).filter isFiredGreen).mergeSort momDesc = _
    have hf : (oks [.ok stockHi, .ok stockLo]).filter isFiredGreen =
        [stockHi, stockLo] := by decide
    rw [hf]
    exact List.mergeSort_of_sorted (by decide)
  exact (c7_bucket_determinism [.ok stockHi, .ok stockLo] [.ok stockLo, .ok stockHi]
      (List.Perm.swap _ _ _)).2.1 (by rw [hfg]; decide)

/-- A list sum as a sum over positions. -/
theorem list_sum_eq_getD (l : List ℚ) :
    l.sum = ∑ i ∈ Finset.range l.length, l.getD i 0 := by
  induction l with
  | nil => simp
  | cons a t ih =>
    rw [List.sum_cons, ih, List.length_cons, Finset.sum_range_succ']
    simp [add_comm]

/-- The closed-form coefficients satisfy the two normal equations of the
least-squares problem. -/
theorem linreg_normal (ys : List ℚ) (hn : ys.length ≠ 0)
    (hd : (ys.length : ℚ) * (∑ i ∈ Finset.range ys.length, (i : ℚ) ^ 2) -
      (∑ i ∈ Finset.range ys.length, (i : ℚ)) ^ 2 ≠ 0) :
    (∑ i ∈ Finset.range ys.length,
        (ys.getD i 0 - (linreg_slope ys * i + linreg_intercept ys))) = 0 ∧
    (∑ i ∈ Finset.range ys.length,
        (i : ℚ) * (ys.getD i 0 - (linreg_slope ys * i + linreg_intercept ys))) = 0 := by
  have hN : ((ys.length : ℚ)) ≠ 0 := Nat.cast_ne_zero.mpr hn
  have hslope : linreg_slope ys =
      ((ys.length : ℚ) * (∑ i ∈ Finset.range ys.length, (i : ℚ) * ys.getD i 0) -
        (∑ i ∈ Finset.range ys.length, (i : ℚ)) *
          (∑ i ∈ Finset.range ys.length, ys.getD i 0)) /
      ((ys.length : ℚ) * (∑ i ∈ Finset.range ys.length, (i : ℚ) ^ 2) -
        (∑ i ∈ Finset.range ys.length, (i : ℚ)) ^ 2) := by
    simp only [linreg_slope, list_sum_eq_getD]
  have hicept : linreg_intercept ys =
      ((∑ i ∈ Finset.range ys.length, ys.getD i 0) -
        linreg_slope ys * (∑ i ∈ Finset.range ys.length, (i : ℚ))) / (ys.length : ℚ) := by
    simp only [linreg_intercept, list_sum_eq_getD]
  have hexp1 : (∑ i ∈ Finset.range ys.length,
      (ys.getD i 0 - (linreg_slope ys * i + linreg_intercept ys))) =
      (∑ i ∈ Finset.range ys.length, ys.getD i 0) -
        (linreg_slope ys * (∑ i ∈ Finset.range ys.length, (i : ℚ)) +
          (ys.length : ℚ) * linreg_intercept ys) := by
    rw [Finset.sum_sub_distrib, Finset.sum_add_distrib, ← Finset.mul_sum,
      Finset.sum_const, Finset.card_range, nsmul_eq_mul]
  have hexp2 : (∑ i ∈ Finset.range ys.length,
      (i : ℚ) * (ys.getD i 0 - (linreg_slope ys * i + linreg_intercept ys))) =
      (∑ i ∈ Finset.range ys.length, (i : ℚ) * ys.getD i 0) -
        (linreg_slope ys * (∑ i ∈ Finset.range ys.length, (i : ℚ) ^ 2) +
          linreg_intercept ys * (∑ i ∈ Finset.range ys.length, (i : ℚ))) := by
    have : ∀ i ∈ Finset.range ys.length,
        (i : ℚ) * (ys.getD i 0 - (linreg_slope ys * i + linreg_intercept ys)) =
          (i : ℚ) * ys.getD i 0 -
            (linreg_slope ys * (i : ℚ) ^ 2 + linreg_intercept ys * (i : ℚ)) := by
      intro i _
      ring
    rw [Finset.sum_congr rfl this, Finset.sum_sub_distrib, Finset.sum_add_distrib,
      ← Finset.mul_sum, ← Finset.mul_sum]
  constructor
  · rw [hexp1, hicept]
    field_simp
  · rw [hexp2, hicept, hslope]
    field_simp
    ring

/-- Decomposition of the least-squares objective around the closed-form
coefficients: any other line pays the full squared distance. -/
theorem sse_decomp (ys : List ℚ) (hn : ys.length ≠ 0)
    (hd : (ys.length : ℚ) * (∑ i ∈ Finset.range ys.length, (i : ℚ) ^ 2) -
      (∑ i ∈ Finset.range ys.length, (i : ℚ)) ^ 2 ≠ 0) (a b : ℚ) :
    sse ys a b = sse ys (linreg_slope ys) (linreg_intercept ys) +
      ∑ i ∈ Finset.range ys.length,
        ((linreg_slope ys - a) * i + (linreg_intercept ys - b)) ^ 2 := by
  obtain ⟨h1, h2⟩ := linreg_normal ys hn hd
  unfold sse
  have key : ∀ i ∈ Finset.range ys.length,
      (ys.getD i 0 - (a * i + b)) ^ 2 =
        (ys.getD i 0 - (linreg_slope ys * i + linreg_intercept ys)) ^ 2 +
          ((2 * (linreg_slope ys - a)) *
            ((i : ℚ) * (ys.getD i 0 - (linreg_slope ys * i + linreg_intercept ys))) +
          ((2 * (linreg_intercept ys - b)) *
            (ys.getD i 0 - (linreg_slope ys * i + linreg_intercept ys)) +
          ((linreg_slope ys - a) * i + (linreg_intercept ys - b)) ^ 2)) := by
    intro i _
    ring
  rw [Finset.sum_congr rfl key, Finset.sum_add_distrib, Finset.sum_add_distrib,
    Finset.sum_add_distrib, ← Finset.mul_sum, ← Finset.mul_sum, h1, h2]
  ring

/-- The closed-form coefficients minimize the least-squares objective. -/
theorem sse_min (ys : List ℚ) (hn : ys.length ≠ 0)
    (hd : (ys.length : ℚ) * (∑ i ∈ Finset.range ys.length, (i : ℚ) ^ 2) -
      (∑ i ∈ Finset.range ys.length, (i : ℚ)) ^ 2 ≠ 0) (a b : ℚ) :
    sse ys (linreg_slope ys) (linreg_intercept ys) ≤ sse ys a b := by
  rw [sse_decomp ys hn hd a b]
  have h : 0 ≤ ∑ i ∈ Finset.range ys.length,
      ((linreg_slope ys - a) * i + (linreg_intercept ys - b)) ^ 2 :=
    Finset.sum_nonneg fun i _ => sq_nonneg _
  linarith

/-- The deviation window always holds exactly `mom_length = 12`
values. -/
theorem devWindow_length (df : List Bar) (i : ℕ) : (devWindow df i).length = 12 := by
  simp [devWindow, mom_length]

/-- The least-squares denominator at window length 12 is the nonzero
constant 1716. -/
theorem denom12 (ys : List ℚ) (h12 : ys.length = 12) :
    (ys.length : ℚ) * (∑ i ∈ Finset.range ys.length, (i : ℚ) ^ 2) -
      (∑ i ∈ Finset.range ys.length, (i : ℚ)) ^ 2 = 1716 := by
  rw [h12]
  norm_num [Finset.sum_range_succ]

/-- C9: the current-bar momentum is the value at the window's last index
(`intercept + slope * 11`) of the ordinary-least-squares best-fit line
over the trailing 12 deviations of Close from the TTM midline (the
average of the Donchian midpoint and the 12-bar SMA of Close): the
closed-form coefficients the code computes minimize the sum of squared
residuals over the window; windows with fewer than 2 points give
momentum 0. -/
theorem c9_momentum_is_ols_fit :
    (∀ (df : List Bar) (v : Verdict), calculate_weekly_squeeze df = some v →
      v.momentum =
        linreg_intercept (devWindow df (df.length - 1)) +
          linreg_slope (devWindow df (df.length - 1)) * 11 ∧
      ∀ a b : ℚ,
        sse (devWindow df (df.length - 1)) (linreg_slope (devWindow df (df.length - 1)))
            (linreg_intercept (devWindow df (df.length - 1))) ≤
          sse (devWindow df (df.length - 1)) a b) ∧
    (∀ ys : List ℚ, ys.length < 2 → linreg_value ys = 0) ∧
    (∀ (df : List Bar) (i : ℕ),
      deviation df i =
        (df.getD i default).close - (donchian_mid df i + sma_close df i) / 2) := by
  refine ⟨?_, ?_, fun df i => rfl⟩
  · intro df v h
    obtain ⟨-, -, -, -, hmom, -⟩ := calc_spec df v h
    have hlen := devWindow_length df (df.length - 1)
    constructor
    · rw [hmom]
      unfold momentumAt linreg_value
      rw [if_neg (by omega), hlen]
      norm_num
    · intro a b
      exact sse_min _ (by omega) (by rw [denom12 _ hlen]; norm_num) a b
  · intro ys hys
    unfold linreg_value
    rw [if_pos hys]

set_option maxRecDepth 100000 in
unseal Rat.add Rat.mul Rat.sub Rat.inv in
/-- C9 (witness): the OLS characterization applied to the concrete
series `exFlat` and a concrete competing line. -/
theorem c9_momentum_is_ols_fit_witness :
    vFlat.momentum =
      linreg_intercept (devWindow exFlat (exFlat.length - 1)) +
        linreg_slope (devWindow exFlat (exFlat.length - 1)) * 11 ∧
    sse (devWindow exFlat (exFlat.length - 1))
        (linreg_slope (devWindow exFlat (exFlat.length - 1)))
        (linreg_intercept (devWindow exFlat (exFlat.length - 1))) ≤
      sse (devWindow exFlat (exFlat.length - 1)) 3 7 := by
  have h := c9_momentum_is_ols_fit.1 exFlat vFlat (by decide)
  exact ⟨h.1, h.2 3 7⟩

end Squeezes
